import Mathlib

/-! DYNASTY20LASERTAG infrared protocol (IRLib2, protocol 13)

A shallow embedding of `IRLib_P13_DYNASTY20LASERTAG.h`.

* The sender (`IRsendDYNASTY20LASERTAG`) drives the emitter through the two
  primitives `mark` (emitter ON for a time) and `space` (emitter OFF for a
  time).  Here the emitter is a log: every call appends one `Pulse` to it.
* C unsigned integers are natural numbers; every operation that can leave the
  width of its C type is followed by an explicit `% 2^w`.
* `for` loops with a counter running over `0 .. n-1` are folds of the loop body
  over `List.range n`; the loop-carried variables are the accumulator.
-/

namespace IRLibP13

/-! ## Emitter model -/

/-- One call of an emission primitive: `isMark = true` for `mark` (emitter ON),
`isMark = false` for `space` (emitter OFF); `dur` is the time in microseconds. -/
structure Pulse where
  isMark : Bool
  dur : Nat
  deriving DecidableEq, Repr

/-- The log of emitted pulses, oldest first. -/
abbrev Trace := List Pulse

/-- `IRsendBase::mark(uint16_t time)`: emitter ON for `time` microseconds. -/
def mark (time : Nat) (tr : Trace) : Trace := tr ++ [⟨true, time % 2 ^ 16⟩]

/-- `IRsendBase::space(uint16_t time)`: emitter OFF for `time` microseconds. -/
def space (time : Nat) (tr : Trace) : Trace := tr ++ [⟨false, time % 2 ^ 16⟩]

/-! ## Protocol constants (lines 40-44) -/

def DYNASTY_DATA2_TOPBIT : Nat := 0x80
def DYNASTY_TH : Nat := 1600
def DYNASTY_T0 : Nat := 400
def DYNASTY_T1 : Nat := 800
def DYNASTY_KHZ : Nat := 38

/-- Modelled from the spec: the constant `TOPBIT` is declared in the library
header `IRLibProtocols.h`, not in this file.  The spec says the 32-bit field is
serialised most-significant-bit first, so `TOPBIT` is the mask of bit 31. -/
def TOPBIT : Nat := 0x80000000

/-! ## `IRsendDYNASTY20LASERTAG::send` (lines 80-129) -/

/-- Body of the first loop (lines 92-108); the accumulator is `(data2, log)`,
with `data2` a `uint8_t`. -/
def data2LoopBody (st : Nat × Trace) (i : Nat) : Nat × Trace :=
  let bit_time := if st.1 &&& DYNASTY_DATA2_TOPBIT ≠ 0 then DYNASTY_T1 else DYNASTY_T0
  let tr := if i &&& 1 ≠ 0 then mark bit_time st.2 else space bit_time st.2
  ((st.1 <<< 1) % 2 ^ 8, tr)

/-- Body of the second loop (lines 110-126); the accumulator is `(data, log)`,
with `data` a `uint32_t`. -/
def dataLoopBody (st : Nat × Trace) (i : Nat) : Nat × Trace :=
  let bit_time := if st.1 &&& TOPBIT ≠ 0 then DYNASTY_T1 else DYNASTY_T0
  let tr := if i &&& 1 ≠ 0 then mark bit_time st.2 else space bit_time st.2
  ((st.1 <<< 1) % 2 ^ 32, tr)

/-- `send(uint32_t data, uint8_t data2)` continuing the log `tr`. -/
def sendFrom (tr : Trace) (data data2 : Nat) : Trace :=
  let tr := mark DYNASTY_TH tr
  let st2 := (List.range 8).foldl data2LoopBody (data2, tr)
  let st := (List.range 32).foldl dataLoopBody (data, st2.2)
  space 1000 st.2

/-- `send(uint32_t data, uint8_t data2)` on a fresh log: the pulse sequence of
one transmission. -/
def send (data data2 : Nat) : Trace := sendFrom [] data data2

/-! ## `IRsendDYNASTY20LASERTAG::sendWithTeamAndWeapon` (lines 50-79) -/

/-- The value of the local `checksum` after lines 70-71. -/
def checksumOf (teamValue weaponValue : Nat) : Nat :=
  let checksumOffset := 0x0D
  let checksum := (checksumOffset + teamValue + weaponValue) % 2 ^ 32
  checksum &&& 0x000F

/-- The value of the local `data` after line 75. -/
def dataOf (teamValue weaponValue : Nat) : Nat :=
  let fixedByte := 0xAA
  let checksum := checksumOf teamValue weaponValue
  ((fixedByte <<< 24) % 2 ^ 32) ||| ((teamValue <<< 16) % 2 ^ 32)
    ||| ((weaponValue <<< 8) % 2 ^ 32) ||| checksum

/-- The value of the local `data2` after line 76. -/
def data2Of : Nat :=
  let randByte := 0xAE
  randByte

/-- `sendWithTeamAndWeapon(uint32_t teamValue, uint32_t weaponValue)`. -/
def sendWithTeamAndWeapon (teamValue weaponValue : Nat) : Trace :=
  send (dataOf teamValue weaponValue) data2Of

/-! ## `IRdecodeDYNASTY20LASERTAG::decode` (lines 136-156) -/

/-- Modelled from the spec: the protocol identifier `DYNASTY20LASERTAG` is
declared in the library header `IRLibProtocols.h`, not in this file; the spec
calls it "a protocol identifier".  The dispatch macro on line 30 selects this
protocol with `case 13:`. -/
def DYNASTY20LASERTAG : Nat := 13

/-- The result fields of `IRdecodeBase` that a decoder fills in. -/
structure DecoderState where
  protocolNum : Nat
  value : Nat
  address : Nat
  bits : Nat
  deriving DecidableEq, Repr

/-- `decode()`.  The captured pulses are the receiver's buffer; the decoder's
result fields are `s`.  `resetDecoder` is a method of the base class
`IRdecodeBase`, which is not in this file: it is a parameter, a function of the
result fields.  The body after `resetDecoder()` is lines 153-155: it reads no
pulse and assigns neither `value` nor `address`. -/
def decode (resetDecoder : DecoderState → DecoderState) (_capture : Trace)
    (s : DecoderState) : Bool × DecoderState :=
  let s := resetDecoder s
  let s := { s with bits := 40 }
  let s := { s with protocolNum := DYNASTY20LASERTAG }
  (true, s)

/-! ## Auxiliary definitions used to state the properties -/

/-- The 40 timeslots of a transmission: what follows the header pulse, without
the trailer pulse. -/
def timeslots (tr : Trace) : List Pulse := (tr.drop 1).take 40

/-- The duration that encodes one bit. -/
def bitDuration (b : Bool) : Nat := if b then 800 else 400

/-- The pulse of timeslot `i` carrying bit `b`. -/
def slotPulse (i : Nat) (b : Bool) : Pulse := ⟨decide (i % 2 = 1), bitDuration b⟩

/-- The `w` low bits of `x`, most significant first. -/
def bitsMSB (w x : Nat) : List Bool := (List.range w).map (fun j => x.testBit (w - 1 - j))

/-- The 40 timeslots that `send` emits for `data` and `data2`, in closed form. -/
def sentSlots (data data2 : Nat) : List Pulse :=
  (List.range 8).map (fun j => slotPulse j (data2.testBit (7 - j)))
    ++ (List.range 32).map (fun j => slotPulse j (data.testBit (31 - j)))

/-- The number of 1 bits among the `w` low bits of `x`. -/
def popcount (w x : Nat) : Nat := (bitsMSB w x).count true

/-! ## The two loops of `send` -/

theorem and_two_pow_ne_zero (x n : Nat) : (x &&& 2 ^ n ≠ 0) ↔ x.testBit n = true := by
  constructor
  · intro h
    by_contra hb
    apply h
    apply Nat.eq_of_testBit_eq
    intro i
    by_cases hi : n = i
    · subst hi; simp [hb]
    · simp [Nat.testBit_two_pow, hi]
  · intro hb h
    have := congrArg (fun y => y.testBit n) h
    simp [hb, Nat.testBit_two_pow] at this

theorem shift_step (W d k : Nat) :
    (((d <<< k) % 2 ^ W) <<< 1) % 2 ^ W = (d <<< (k + 1)) % 2 ^ W := by
  simp only [Nat.shiftLeft_eq, pow_succ, pow_one, pow_zero, one_mul]
  rw [Nat.mod_mul_mod, Nat.mul_assoc]

theorem topbit_shifted (W d k : Nat) (hk : k < W) :
    (((d <<< k) % 2 ^ W) &&& 2 ^ (W - 1) ≠ 0) ↔ d.testBit (W - 1 - k) = true := by
  rw [and_two_pow_ne_zero]
  have h1 : W - 1 < W := by omega
  have h2 : k ≤ W - 1 := by omega
  simp [Nat.testBit_mod_two_pow, Nat.testBit_shiftLeft, h1, h2]

theorem data2LoopBody_eq (d k : Nat) (tr : Trace) (hk : k < 8) :
    data2LoopBody ((d <<< k) % 2 ^ 8, tr) k
      = ((d <<< (k + 1)) % 2 ^ 8, tr ++ [slotPulse k (d.testBit (7 - k))]) := by
  have ht := topbit_shifted 8 d k hk
  have hs := shift_step 8 d k
  simp only [data2LoopBody, DYNASTY_DATA2_TOPBIT, DYNASTY_T0, DYNASTY_T1, mark, space,
    slotPulse, bitDuration, Nat.and_one_is_mod] at *
  rw [hs]
  by_cases hb : d.testBit (7 - k) = true <;> by_cases hp : k % 2 = 1 <;>
    simp_all

theorem dataLoopBody_eq (d k : Nat) (tr : Trace) (hk : k < 32) :
    dataLoopBody ((d <<< k) % 2 ^ 32, tr) k
      = ((d <<< (k + 1)) % 2 ^ 32, tr ++ [slotPulse k (d.testBit (31 - k))]) := by
  have ht := topbit_shifted 32 d k hk
  have hs := shift_step 32 d k
  simp only [dataLoopBody, TOPBIT, DYNASTY_T0, DYNASTY_T1, mark, space,
    slotPulse, bitDuration, Nat.and_one_is_mod] at *
  rw [hs]
  by_cases hb : d.testBit (31 - k) = true <;> by_cases hp : k % 2 = 1 <;>
    simp_all

theorem data2Loop_eq (d : Nat) (tr : Trace) (k : Nat) (hk : k ≤ 8) :
    (List.range k).foldl data2LoopBody (d % 2 ^ 8, tr)
      = ((d <<< k) % 2 ^ 8,
          tr ++ (List.range k).map (fun j => slotPulse j (d.testBit (7 - j)))) := by
  induction k with
  | zero => simp
  | succ n ih =>
    rw [List.range_succ, List.foldl_append, ih (by omega)]
    simp only [List.foldl_cons, List.foldl_nil, List.map_append, List.map_cons, List.map_nil]
    rw [data2LoopBody_eq d n _ (by omega), List.append_assoc]

theorem dataLoop_eq (d : Nat) (tr : Trace) (k : Nat) (hk : k ≤ 32) :
    (List.range k).foldl dataLoopBody (d % 2 ^ 32, tr)
      = ((d <<< k) % 2 ^ 32,
          tr ++ (List.range k).map (fun j => slotPulse j (d.testBit (31 - j)))) := by
  induction k with
  | zero => simp
  | succ n ih =>
    rw [List.range_succ, List.foldl_append, ih (by omega)]
    simp only [List.foldl_cons, List.foldl_nil, List.map_append, List.map_cons, List.map_nil]
    rw [dataLoopBody_eq d n _ (by omega), List.append_assoc]

theorem sentSlots_length (data data2 : Nat) : (sentSlots data data2).length = 40 := by
  simp [sentSlots]

/-- The pulses that `send` appends to the log, in closed form. -/
theorem sendFrom_eq (tr : Trace) (data data2 : Nat) (hd : data < 2 ^ 32)
    (hd2 : data2 < 2 ^ 8) :
    sendFrom tr data data2
      = tr ++ (⟨true, 1600⟩ :: sentSlots data data2 ++ [⟨false, 1000⟩]) := by
  have h2 := data2Loop_eq data2 (mark DYNASTY_TH tr) 8 (le_refl _)
  rw [Nat.mod_eq_of_lt hd2] at h2
  have h1 := fun t => dataLoop_eq data t 32 (le_refl _)
  rw [Nat.mod_eq_of_lt hd] at h1
  simp only [sendFrom, h2, h1]
  simp [mark, space, DYNASTY_TH, sentSlots]

theorem send_eq (data data2 : Nat) (hd : data < 2 ^ 32) (hd2 : data2 < 2 ^ 8) :
    send data data2 = ⟨true, 1600⟩ :: sentSlots data data2 ++ [⟨false, 1000⟩] := by
  rw [send, sendFrom_eq [] data data2 hd hd2]
  simp

theorem timeslots_send (data data2 : Nat) (hd : data < 2 ^ 32) (hd2 : data2 < 2 ^ 8) :
    timeslots (send data data2) = sentSlots data data2 := by
  rw [send_eq data data2 hd hd2, timeslots]
  simp only [List.cons_append, List.drop_succ_cons, List.drop_zero]
  rw [← sentSlots_length data data2, List.take_left]

theorem sentSlots_getElem? (data data2 k : Nat) (hk : k < 40) :
    (sentSlots data data2)[k]?
      = some (slotPulse k (if k < 8 then data2.testBit (7 - k) else data.testBit (39 - k))) := by
  unfold sentSlots
  by_cases h8 : k < 8
  · rw [List.getElem?_append_left (by simpa using h8)]
    simp [h8, List.getElem?_range]
  · rw [List.getElem?_append_right (by simpa using h8)]
    have h32 : k - 8 < 32 := by omega
    have e1 : 31 - (k - 8) = 39 - k := by omega
    have e2 : (k - 8) % 2 = k % 2 := by omega
    simp [h8, h32, List.getElem?_range, slotPulse, e1, e2]

/-! ## Properties of `send` -/

/-- C1: for 32-bit `data` and 8-bit `data2`, timeslot `k` of `send data data2`
(`k < 40`, counted after the header) lasts 800 us when its bit is 1 and 400 us
when its bit is 0, where the bit is bit `7 - k` of `data2` for `k < 8` and bit
`39 - k` of `data` for `8 ≤ k`. -/
theorem send_timeslot_duration (data data2 k : Nat) (hd : data < 2 ^ 32)
    (hd2 : data2 < 2 ^ 8) (hk : k < 40) :
    ((timeslots (send data data2))[k]?).map Pulse.dur
      = some (if (if k < 8 then data2.testBit (7 - k) else data.testBit (39 - k)) = true
          then 800 else 400) := by
  rw [timeslots_send data data2 hd hd2, sentSlots_getElem? data data2 k hk]
  simp [slotPulse, bitDuration]

theorem send_timeslot_duration_witness :
    ((timeslots (send 0xAA123403 0xAE))[5]?).map Pulse.dur
        = some (if (if 5 < 8 then (0xAE).testBit (7 - 5) else (0xAA123403).testBit (39 - 5)) = true
            then 800 else 400)
      ∧ ((timeslots (send 0xAA123403 0xAE))[5]?).map Pulse.dur = some 800 :=
  ⟨send_timeslot_duration 0xAA123403 0xAE 5 (by norm_num) (by norm_num) (by norm_num),
    by decide⟩

/-- C2: for 32-bit `data` and 8-bit `data2`, `send` calls the emission
primitives exactly 42 times: it appends to the log a mark of 1600 us, then the
40 timeslots, then a space of 1000 us, and nothing else. -/
theorem send_emits_42 (tr : Trace) (data data2 : Nat) (hd : data < 2 ^ 32)
    (hd2 : data2 < 2 ^ 8) :
    sendFrom tr data data2
        = tr ++ (⟨true, 1600⟩ :: timeslots (send data data2) ++ [⟨false, 1000⟩])
      ∧ (timeslots (send data data2)).length = 40
      ∧ (sendFrom tr data data2).length = tr.length + 42
      ∧ (send data data2).length = 42 := by
  rw [timeslots_send data data2 hd hd2, sendFrom_eq tr data data2 hd hd2,
    send_eq data data2 hd hd2]
  simp [sentSlots_length]

theorem send_emits_42_witness :
    sendFrom [⟨false, 7⟩] 0xAA123403 0xAE
        = [⟨false, 7⟩] ++ (⟨true, 1600⟩ :: timeslots (send 0xAA123403 0xAE) ++ [⟨false, 1000⟩])
      ∧ (timeslots (send 0xAA123403 0xAE)).length = 40
      ∧ (sendFrom [⟨false, 7⟩] 0xAA123403 0xAE).length = [(⟨false, 7⟩ : Pulse)].length + 42
      ∧ (send 0xAA123403 0xAE).length = 42 :=
  send_emits_42 [⟨false, 7⟩] 0xAA123403 0xAE (by norm_num) (by norm_num)

/-- C3: for 32-bit `data` and 8-bit `data2`, timeslot `i` of `send data data2`
(`i < 40`, counted after the header) is a space (OFF) when `i` is even and a
mark (ON) when `i` is odd, across the boundary between the two loops as well. -/
theorem send_timeslot_polarity (data data2 i : Nat) (hd : data < 2 ^ 32)
    (hd2 : data2 < 2 ^ 8) (hi : i < 40) :
    ((timeslots (send data data2))[i]?).map Pulse.isMark = some (decide (i % 2 = 1)) := by
  rw [timeslots_send data data2 hd hd2, sentSlots_getElem? data data2 i hi]
  simp [slotPulse]

theorem send_timeslot_polarity_witness :
    ((timeslots (send 0xAA123403 0xAE))[7]?).map Pulse.isMark = some true
      ∧ ((timeslots (send 0xAA123403 0xAE))[8]?).map Pulse.isMark = some false :=
  ⟨by simpa using send_timeslot_polarity 0xAA123403 0xAE 7 (by norm_num) (by norm_num) (by norm_num),
    by simpa using send_timeslot_polarity 0xAA123403 0xAE 8 (by norm_num) (by norm_num) (by norm_num)⟩

/-! ## Properties of `sendWithTeamAndWeapon` -/

theorem checksumOf_eq (t w : Nat) : checksumOf t w = (0x0D + t + w) % 16 := by
  unfold checksumOf
  show ((0x0D + t + w) % 2 ^ 32) &&& (2 ^ 4 - 1) = _
  rw [Nat.and_pow_two_sub_one_eq_mod]
  omega

theorem testBit_of_lt_256 (x j : Nat) (hx : x < 256) (hj : 8 ≤ j) : x.testBit j = false := by
  apply Nat.testBit_lt_two_pow
  calc x < 2 ^ 8 := by omega
    _ ≤ 2 ^ j := Nat.pow_le_pow_right (by norm_num) hj

theorem dataOf_testBit (t w i : Nat) :
    (dataOf t w).testBit i
      = (decide (i < 32) &&
          ((decide (24 ≤ i) && (0xAA).testBit (i - 24)) || (decide (16 ≤ i) && t.testBit (i - 16))
            || (decide (8 ≤ i) && w.testBit (i - 8)))
          || (decide (i < 4) && ((0x0D + t + w) % 16).testBit i)) := by
  unfold dataOf
  rw [checksumOf_eq]
  simp only [Nat.testBit_or, Nat.testBit_mod_two_pow, Nat.testBit_shiftLeft]
  have h16 : (16 : Nat) = 2 ^ 4 := by norm_num
  rw [h16, Nat.testBit_mod_two_pow]
  cases h1 : decide (i < 32) <;> cases h2 : decide (i < 4) <;> simp_all

theorem dataOf_packed (t w : Nat) (ht : t ≤ 255) (hw : w ≤ 255) :
    dataOf t w = 0xAA * 2 ^ 24 + t * 2 ^ 16 + w * 2 ^ 8 + (0x0D + t + w) % 16 := by
  have hc : (0x0D + t + w) % 16 < 2 ^ 8 := by omega
  have hwc : 2 ^ 8 * w + (0x0D + t + w) % 16 < 2 ^ 16 := by omega
  have htwc : 2 ^ 16 * t + (2 ^ 8 * w + (0x0D + t + w) % 16) < 2 ^ 24 := by omega
  have e1 := Nat.mul_add_lt_is_or hc w
  have e2 := Nat.mul_add_lt_is_or hwc t
  have e3 := Nat.mul_add_lt_is_or htwc 0xAA
  have m1 : (0xAA <<< 24) % 2 ^ 32 = 2 ^ 24 * 0xAA := by decide
  have m2 : (t <<< 16) % 2 ^ 32 = 2 ^ 16 * t := by
    rw [Nat.shiftLeft_eq, Nat.mod_eq_of_lt (by omega)]; ring
  have m3 : (w <<< 8) % 2 ^ 32 = 2 ^ 8 * w := by
    rw [Nat.shiftLeft_eq, Nat.mod_eq_of_lt (by omega)]; ring
  unfold dataOf
  rw [checksumOf_eq]
  simp only [m1, m2, m3]
  rw [Nat.or_assoc, Nat.or_assoc, ← e1, ← e2, ← e3]
  ring

/-- C4: for team and weapon codes in [0,255], `sendWithTeamAndWeapon` calls
`send` with `data2 = 0xAE` and
`data = 0xAA * 2^24 + teamCode * 2^16 + weaponCode * 2^8 + ((0x0D + teamCode + weaponCode) mod 16)`;
for team 0x12 and weapon 0x34 that is `data = 0xAA123403`. -/
theorem sendWithTeamAndWeapon_packs (teamCode weaponCode : Nat) (ht : teamCode ≤ 255)
    (hw : weaponCode ≤ 255) :
    sendWithTeamAndWeapon teamCode weaponCode
        = send (0xAA * 2 ^ 24 + teamCode * 2 ^ 16 + weaponCode * 2 ^ 8
            + (0x0D + teamCode + weaponCode) % 16) 0xAE
      ∧ dataOf teamCode weaponCode
        = 0xAA * 2 ^ 24 + teamCode * 2 ^ 16 + weaponCode * 2 ^ 8
            + (0x0D + teamCode + weaponCode) % 16
      ∧ data2Of = 0xAE
      ∧ dataOf 0x12 0x34 = 0xAA123403 := by
  refine ⟨?_, dataOf_packed teamCode weaponCode ht hw, rfl, by decide⟩
  rw [sendWithTeamAndWeapon, dataOf_packed teamCode weaponCode ht hw]
  rfl

theorem sendWithTeamAndWeapon_packs_witness :
    sendWithTeamAndWeapon 0x12 0x34 = send 0xAA123403 0xAE
      ∧ dataOf 0x12 0x34 = 0xAA123403 ∧ data2Of = 0xAE :=
  ⟨(sendWithTeamAndWeapon_packs 0x12 0x34 (by norm_num) (by norm_num)).1,
    (sendWithTeamAndWeapon_packs 0x12 0x34 (by norm_num) (by norm_num)).2.1,
    (sendWithTeamAndWeapon_packs 0x12 0x34 (by norm_num) (by norm_num)).2.2.1⟩

/-- C5: for all `teamValue` and `weaponValue` (in particular all 32-bit ones),
the checksum computed on lines 70-71 is `(0x0D + teamValue + weaponValue) mod 16`
for the exact integer sum, it is below 16, and it is what the low 4 bits of
`data` hold. -/
theorem checksum_low_nibble (teamValue weaponValue : Nat) :
    checksumOf teamValue weaponValue = (0x0D + teamValue + weaponValue) % 16
      ∧ dataOf teamValue weaponValue % 16 = (0x0D + teamValue + weaponValue) % 16 := by
  refine ⟨checksumOf_eq teamValue weaponValue, ?_⟩
  have h16 : (16 : Nat) = 2 ^ 4 := by norm_num
  apply Nat.eq_of_testBit_eq
  intro i
  rw [h16, Nat.testBit_mod_two_pow, dataOf_testBit, ← h16]
  by_cases h4 : i < 4
  · have h32 : i < 32 := by omega
    have a : ¬ 24 ≤ i := by omega
    have b : ¬ 16 ≤ i := by omega
    have c : ¬ 8 ≤ i := by omega
    simp [h4, h32, a, b, c]
  · have hb : ((0x0D + teamValue + weaponValue) % 16).testBit i = false := by
      apply Nat.testBit_lt_two_pow
      calc (0x0D + teamValue + weaponValue) % 16 < 2 ^ 4 := by omega
        _ ≤ 2 ^ i := Nat.pow_le_pow_right (by norm_num) (by omega)
    simp [h4, hb]

/-- C6 on the code: line 75 shifts `teamValue` without masking it to 8 bits, so
`teamValue = 0x100` is not sent like `teamValue = 0x100 mod 256 = 0`: its bit 8
lands in the marker byte, `data` is 0xAB00000D instead of 0xAA00000D, and slots
9-16 carry 10101011 (0xAB) instead of the fixed 0xAA of the comment on line 53. -/
theorem truncation_to_8_bits_fails :
    0x100 < 2 ^ 32 ∧ 0 < 2 ^ 32
      ∧ sendWithTeamAndWeapon 0x100 0 ≠ sendWithTeamAndWeapon (0x100 % 256) (0 % 256)
      ∧ dataOf 0x100 0 = 0xAB00000D ∧ dataOf (0x100 % 256) (0 % 256) = 0xAA00000D
      ∧ (((timeslots (sendWithTeamAndWeapon 0x100 0)).drop 8).take 8).map Pulse.dur
          = [800, 400, 800, 400, 800, 400, 800, 800]
      ∧ (((timeslots (sendWithTeamAndWeapon (0x100 % 256) (0 % 256))).drop 8).take 8).map
          Pulse.dur = [800, 400, 800, 400, 800, 400, 800, 400] := by
  decide

theorem dataOf_lt (t w : Nat) : dataOf t w < 2 ^ 32 := by
  apply Nat.lt_pow_two_of_testBit
  intro i hi
  rw [dataOf_testBit]
  have h32 : ¬ i < 32 := by omega
  have h4 : ¬ i < 4 := by omega
  simp [h32, h4]

theorem range_8 : List.range 8 = [0, 1, 2, 3, 4, 5, 6, 7] := by decide

theorem range_32 : List.range 32
    = [0, 1, 2, 3, 4, 5, 6, 7, 8, 9, 10, 11, 12, 13, 14, 15,
       16, 17, 18, 19, 20, 21, 22, 23, 24, 25, 26, 27, 28, 29, 30, 31] := by decide

/-- C7: for team and weapon codes in [0,255], the durations of the 40
timeslots of `sendWithTeamAndWeapon` are, in order, those of the bits of 0xAE
(slots 1-8), of 0xAA (slots 9-16, that is 1, 0, 1, 0, ...), of the team code
(slots 17-24), of the weapon code (slots 25-32), of 0000 (slots 33-36) and of
the 4-bit checksum (slots 37-40), each field most significant bit first, with
800 us for a 1 and 400 us for a 0. -/
theorem slot_layout (teamCode weaponCode : Nat) (ht : teamCode ≤ 255)
    (hw : weaponCode ≤ 255) :
    (timeslots (sendWithTeamAndWeapon teamCode weaponCode)).map Pulse.dur
        = (bitsMSB 8 0xAE ++ bitsMSB 8 0xAA ++ bitsMSB 8 teamCode ++ bitsMSB 8 weaponCode
            ++ bitsMSB 4 0 ++ bitsMSB 4 ((0x0D + teamCode + weaponCode) % 16)).map
            (fun b => if b = true then 800 else 400)
      ∧ bitsMSB 8 0xAA = [true, false, true, false, true, false, true, false] := by
  refine ⟨?_, by decide⟩
  rw [sendWithTeamAndWeapon, timeslots_send _ _ (dataOf_lt _ _) (by decide)]
  have t8 : ∀ j, 8 ≤ j → teamCode.testBit j = false :=
    fun j hj => testBit_of_lt_256 teamCode j (by omega) hj
  have w8 : ∀ j, 8 ≤ j → weaponCode.testBit j = false :=
    fun j hj => testBit_of_lt_256 weaponCode j (by omega) hj
  simp only [sentSlots, bitsMSB, range_8, range_32, List.range_succ, List.range_zero,
    List.map_append, List.map_cons, List.map_nil, List.nil_append, List.cons_append,
    slotPulse, bitDuration, dataOf_testBit, data2Of]
  simp [t8, w8]

theorem slot_layout_witness :
    (timeslots (sendWithTeamAndWeapon 0x12 0x34)).map Pulse.dur
        = (bitsMSB 8 0xAE ++ bitsMSB 8 0xAA ++ bitsMSB 8 0x12 ++ bitsMSB 8 0x34
            ++ bitsMSB 4 0 ++ bitsMSB 4 ((0x0D + 0x12 + 0x34) % 16)).map
            (fun b => if b = true then 800 else 400) :=
  (slot_layout 0x12 0x34 (by norm_num) (by norm_num)).1

/-! ## Behaviour of `decode` -/

theorem decode_eq (resetDecoder : DecoderState → DecoderState) (capture : Trace)
    (s : DecoderState) :
    decode resetDecoder capture s
      = (true, { protocolNum := DYNASTY20LASERTAG, value := (resetDecoder s).value,
                 address := (resetDecoder s).address, bits := 40 }) := rfl

/-- C8 on the code: `decode` on the pulses of `sendWithTeamAndWeapon 0x12 0x34`
returns success, but `value` and `address` are what `resetDecoder` left (0 and 0
when the reset clears the fields), not 0xAA123403 and 0xAE; whatever the reset,
the frames of (0x12, 0x34) and of (0, 0) decode to the same `value`, so the
round trip cannot hold for both. -/
theorem decode_roundtrip_fails (resetDecoder : DecoderState → DecoderState)
    (s : DecoderState) :
    (decode (fun _ => ⟨0, 0, 0, 0⟩) (sendWithTeamAndWeapon 0x12 0x34) s).1 = true
      ∧ (decode (fun _ => ⟨0, 0, 0, 0⟩) (sendWithTeamAndWeapon 0x12 0x34) s).2.value = 0
      ∧ (decode (fun _ => ⟨0, 0, 0, 0⟩) (sendWithTeamAndWeapon 0x12 0x34) s).2.address = 0
      ∧ (decode resetDecoder (sendWithTeamAndWeapon 0x12 0x34) s).2.value
          = (resetDecoder s).value
      ∧ (decode resetDecoder (sendWithTeamAndWeapon 0x12 0x34) s).2.address
          = (resetDecoder s).address
      ∧ ¬ ((decode resetDecoder (sendWithTeamAndWeapon 0x12 0x34) s).2.value = dataOf 0x12 0x34
            ∧ (decode resetDecoder (sendWithTeamAndWeapon 0 0) s).2.value = dataOf 0 0) := by
  refine ⟨rfl, rfl, rfl, rfl, rfl, ?_⟩
  simp only [decode_eq]
  intro h
  have h2 : dataOf 0x12 0x34 = dataOf 0 0 := h.1.symm.trans h.2
  revert h2
  decide

/-- C9 on the code: `decode` returns success on every capture whose first pulse
lasts 3200 us, for instance on the capture of that single pulse. -/
theorem decode_accepts_bad_header (resetDecoder : DecoderState → DecoderState)
    (s : DecoderState) (isMark : Bool) (rest : Trace) :
    (decode resetDecoder (⟨isMark, 3200⟩ :: rest) s).1 = true
      ∧ (decode resetDecoder [⟨true, 3200⟩] s).1 = true :=
  ⟨rfl, rfl⟩

/-- C10 on the code: `decode` returns success on a capture made of a 1600 us
header and only the first 30 timeslots of a transmission. -/
theorem decode_accepts_truncated (resetDecoder : DecoderState → DecoderState)
    (s : DecoderState) :
    (decode resetDecoder ((sendWithTeamAndWeapon 0x12 0x34).take 31) s).1 = true
      ∧ ((sendWithTeamAndWeapon 0x12 0x34).take 31).length = 31
      ∧ ((sendWithTeamAndWeapon 0x12 0x34).take 31).head? = some ⟨true, 1600⟩ :=
  ⟨rfl, by decide, by decide⟩

/-- C11: for every decoder state and capture, when `decode` returns true the
decoder reports `bits = 40` and `protocolNum = DYNASTY20LASERTAG`. -/
theorem decode_success_bits (resetDecoder : DecoderState → DecoderState) (capture : Trace)
    (s : DecoderState) :
    (decode resetDecoder capture s).1 = true →
      (decode resetDecoder capture s).2.bits = 40
        ∧ (decode resetDecoder capture s).2.protocolNum = DYNASTY20LASERTAG := by
  intro _
  rw [decode_eq]
  exact ⟨rfl, rfl⟩

theorem decode_success_bits_witness :
    (decode (fun _ => ⟨0, 0, 0, 0⟩) (send 0xAA123403 0xAE) ⟨7, 7, 7, 7⟩).1 = true
      ∧ (decode (fun _ => ⟨0, 0, 0, 0⟩) (send 0xAA123403 0xAE) ⟨7, 7, 7, 7⟩).2.bits = 40
      ∧ (decode (fun _ => ⟨0, 0, 0, 0⟩) (send 0xAA123403 0xAE) ⟨7, 7, 7, 7⟩).2.protocolNum
          = DYNASTY20LASERTAG :=
  ⟨rfl, decode_success_bits (fun _ => ⟨0, 0, 0, 0⟩) (send 0xAA123403 0xAE) ⟨7, 7, 7, 7⟩ rfl⟩

/-- C12: `decode` is a stub: on any two captures (the empty one included) it
returns true, and its result, `bits` and `protocolNum` are the same; this holds
whatever `resetDecoder` does on either call and whatever the fields held
before.  With the same reset and fields the whole outcome is the same. -/
theorem decode_is_stub (reset1 reset2 : DecoderState → DecoderState) (c1 c2 : Trace)
    (s1 s2 : DecoderState) :
    (decode reset1 c1 s1).1 = true
      ∧ (decode reset2 c2 s2).1 = true
      ∧ (decode reset1 [] s1).1 = true
      ∧ (decode reset1 c1 s1).1 = (decode reset2 c2 s2).1
      ∧ (decode reset1 c1 s1).2.bits = (decode reset2 c2 s2).2.bits
      ∧ (decode reset1 c1 s1).2.protocolNum = (decode reset2 c2 s2).2.protocolNum
      ∧ decode reset1 c1 s1 = decode reset1 c2 s1 :=
  ⟨rfl, rfl, rfl, rfl, rfl, rfl, rfl⟩

/-- C13 on the code: for team code 2 and weapon code 0 the sum is 0xF; the
formula of the comment on line 60, the sum `% 0xF`, gives 0, while line 71
masks with `& 0x000F` and slots 37-40 carry 0xF (four slots of 800 us). -/
theorem checksum_not_mod_0xF :
    (0xD + 2 + 0) % 0xF = 0
      ∧ checksumOf 2 0 = 0xF
      ∧ dataOf 2 0 % 16 = 0xF
      ∧ (((timeslots (sendWithTeamAndWeapon 2 0)).drop 36).take 4).map Pulse.dur
          = [800, 800, 800, 800]
      ∧ checksumOf 2 0 ≠ (0xD + 2 + 0) % 0xF := by
  decide

/-- C14: for all `teamValue` and `weaponValue` (in range or not), bits 7..4 of
the `data` word of `sendWithTeamAndWeapon` are 0 and timeslots 32-35 (0-based)
of the emitted sequence all last 400 us. -/
theorem reserved_bits_zero (teamValue weaponValue : Nat) :
    (dataOf teamValue weaponValue).testBit 7 = false
      ∧ (dataOf teamValue weaponValue).testBit 6 = false
      ∧ (dataOf teamValue weaponValue).testBit 5 = false
      ∧ (dataOf teamValue weaponValue).testBit 4 = false
      ∧ dataOf teamValue weaponValue / 16 % 16 = 0
      ∧ (((timeslots (sendWithTeamAndWeapon teamValue weaponValue)).drop 32).take 4).map
          Pulse.dur = [400, 400, 400, 400] := by
  have b7 : (dataOf teamValue weaponValue).testBit 7 = false := by simp [dataOf_testBit]
  have b6 : (dataOf teamValue weaponValue).testBit 6 = false := by simp [dataOf_testBit]
  have b5 : (dataOf teamValue weaponValue).testBit 5 = false := by simp [dataOf_testBit]
  have b4 : (dataOf teamValue weaponValue).testBit 4 = false := by simp [dataOf_testBit]
  refine ⟨b7, b6, b5, b4, ?_, ?_⟩
  · have e : dataOf teamValue weaponValue / 16 % 16
        = (dataOf teamValue weaponValue >>> 4) % 2 ^ 4 := by
      rw [Nat.shiftRight_eq_div_pow]; norm_num
    rw [e]
    apply Nat.eq_of_testBit_eq
    intro i
    rw [Nat.testBit_mod_two_pow, Nat.testBit_shiftRight]
    by_cases h0 : i = 0
    · subst h0; simp [b4]
    by_cases h1 : i = 1
    · subst h1; simp [b5]
    by_cases h2 : i = 2
    · subst h2; simp [b6]
    by_cases h3 : i = 3
    · subst h3; simp [b7]
    have h4 : ¬ i < 4 := by omega
    simp [h4]
  · rw [sendWithTeamAndWeapon, timeslots_send _ _ (dataOf_lt _ _) (by decide)]
    simp only [sentSlots, range_8, range_32, List.map_append, List.map_cons, List.map_nil,
      List.cons_append, List.nil_append, List.drop_succ_cons, List.drop_zero,
      List.take_succ_cons, List.take_zero, slotPulse, bitDuration]
    simp [b7, b6, b5, b4]

/-- C17: for team and weapon codes in [0,255], the checksum depends only on the
low nibbles of both codes and is symmetric in them; codes that agree on their
low nibbles give the same checksum. -/
theorem checksum_low_nibbles_symmetric (teamCode weaponCode teamCode2 weaponCode2 : Nat)
    (ht : teamCode ≤ 255) (hw : weaponCode ≤ 255) (ht2 : teamCode2 ≤ 255)
    (hw2 : weaponCode2 ≤ 255) (hlt : teamCode2 % 16 = teamCode % 16)
    (hlw : weaponCode2 % 16 = weaponCode % 16) :
    checksumOf teamCode weaponCode = checksumOf (teamCode % 16) (weaponCode % 16)
      ∧ checksumOf teamCode weaponCode = checksumOf weaponCode teamCode
      ∧ checksumOf teamCode2 weaponCode2 = checksumOf teamCode weaponCode
      ∧ dataOf teamCode2 weaponCode2 % 16 = dataOf teamCode weaponCode % 16 := by
  have d1 := dataOf_packed teamCode weaponCode ht hw
  have d2 := dataOf_packed teamCode2 weaponCode2 ht2 hw2
  simp only [checksumOf_eq]
  refine ⟨by omega, by omega, by omega, by omega⟩

theorem checksum_low_nibbles_symmetric_witness :
    checksumOf 0x12 0x34 = checksumOf (0x12 % 16) (0x34 % 16)
      ∧ checksumOf 0x12 0x34 = checksumOf 0x34 0x12
      ∧ checksumOf 0xF2 0x04 = checksumOf 0x12 0x34
      ∧ dataOf 0xF2 0x04 % 16 = dataOf 0x12 0x34 % 16 :=
  checksum_low_nibbles_symmetric 0x12 0x34 0xF2 0x04 (by norm_num) (by norm_num)
    (by norm_num) (by norm_num) (by norm_num) (by norm_num)

/-! ## Injectivity of the encoding -/

theorem slotPulse_inj (j : Nat) (b c : Bool) (h : slotPulse j b = slotPulse j c) : b = c := by
  have hd : bitDuration b = bitDuration c := congrArg Pulse.dur h
  revert hd
  cases b <;> cases c <;> simp [bitDuration]

theorem testBit_of_lt_two_pow (x n i : Nat) (hx : x < 2 ^ n) (hi : n ≤ i) :
    x.testBit i = false := by
  apply Nat.testBit_lt_two_pow
  exact lt_of_lt_of_le hx (Nat.pow_le_pow_right (by norm_num) hi)

theorem sentSlots_inj (d e d2 e2 : Nat) (hd : d < 2 ^ 32) (he : e < 2 ^ 32)
    (hd2 : d2 < 2 ^ 8) (he2 : e2 < 2 ^ 8) (h : sentSlots d d2 = sentSlots e e2) :
    d = e ∧ d2 = e2 := by
  have key : ∀ k, k < 40 →
      (if k < 8 then d2.testBit (7 - k) else d.testBit (39 - k))
        = (if k < 8 then e2.testBit (7 - k) else e.testBit (39 - k)) := by
    intro k hk
    have h1 := sentSlots_getElem? d d2 k hk
    have h2 := sentSlots_getElem? e e2 k hk
    rw [h, h2] at h1
    exact (slotPulse_inj k _ _ (Option.some.inj h1)).symm
  constructor
  · apply Nat.eq_of_testBit_eq
    intro i
    by_cases hi : i < 32
    · have hk := key (39 - i) (by omega)
      have h8 : ¬ 39 - i < 8 := by omega
      have e1 : 39 - (39 - i) = i := by omega
      simpa [h8, e1] using hk
    · rw [testBit_of_lt_two_pow d 32 i hd (by omega),
        testBit_of_lt_two_pow e 32 i he (by omega)]
  · apply Nat.eq_of_testBit_eq
    intro i
    by_cases hi : i < 8
    · have hk := key (7 - i) (by omega)
      have h8 : 7 - i < 8 := by omega
      have e1 : 7 - (7 - i) = i := by omega
      simpa [h8, e1] using hk
    · rw [testBit_of_lt_two_pow d2 8 i hd2 (by omega),
        testBit_of_lt_two_pow e2 8 i he2 (by omega)]

theorem send_inj (d e d2 e2 : Nat) (hd : d < 2 ^ 32) (he : e < 2 ^ 32)
    (hd2 : d2 < 2 ^ 8) (he2 : e2 < 2 ^ 8) (h : send d d2 = send e e2) :
    d = e ∧ d2 = e2 := by
  rw [send_eq d d2 hd hd2, send_eq e e2 he he2] at h
  have h1 := List.tail_eq_of_cons_eq h
  exact sentSlots_inj d e d2 e2 hd he hd2 he2 (List.append_cancel_right h1)

/-- C15: `send` is injective on 32-bit `data` and 8-bit `data2`, and distinct
pairs of team and weapon codes in [0,255] give distinct pulse sequences of
`sendWithTeamAndWeapon`. -/
theorem send_injective (data data' data2 data2' teamCode weaponCode teamCode' weaponCode' : Nat)
    (hd : data < 2 ^ 32) (hd' : data' < 2 ^ 32) (hd2 : data2 < 2 ^ 8) (hd2' : data2' < 2 ^ 8)
    (ht : teamCode ≤ 255) (hw : weaponCode ≤ 255) (ht' : teamCode' ≤ 255)
    (hw' : weaponCode' ≤ 255) :
    (send data data2 = send data' data2' → data = data' ∧ data2 = data2')
      ∧ ((teamCode, weaponCode) ≠ (teamCode', weaponCode') →
          sendWithTeamAndWeapon teamCode weaponCode
            ≠ sendWithTeamAndWeapon teamCode' weaponCode') := by
  refine ⟨send_inj data data' data2 data2' hd hd' hd2 hd2', ?_⟩
  intro hne heq
  apply hne
  have hdata := (send_inj _ _ _ _ (dataOf_lt teamCode weaponCode)
    (dataOf_lt teamCode' weaponCode') (by decide) (by decide) heq).1
  rw [dataOf_packed teamCode weaponCode ht hw,
    dataOf_packed teamCode' weaponCode' ht' hw'] at hdata
  have h1 : teamCode = teamCode' := by omega
  have h2 : weaponCode = weaponCode' := by omega
  rw [h1, h2]

theorem send_injective_witness :
    (send 0xAA123403 0xAE = send 0xAA123403 0xAE → 0xAA123403 = 0xAA123403 ∧ 0xAE = 0xAE)
      ∧ sendWithTeamAndWeapon 0x12 0x34 ≠ sendWithTeamAndWeapon 0x34 0x12 :=
  ⟨(send_injective 0xAA123403 0xAA123403 0xAE 0xAE 0x12 0x34 0x34 0x12 (by norm_num)
      (by norm_num) (by norm_num) (by norm_num) (by norm_num) (by norm_num) (by norm_num)
      (by norm_num)).1,
    (send_injective 0xAA123403 0xAA123403 0xAE 0xAE 0x12 0x34 0x34 0x12 (by norm_num)
      (by norm_num) (by norm_num) (by norm_num) (by norm_num) (by norm_num) (by norm_num)
      (by norm_num)).2 (by decide)⟩

/-! ## Polarity and duration of the whole sequence -/

/-- The polarities of 42 strictly alternating pulses that start with a mark. -/
theorem polarities_42 : (List.range 42).map (fun n => decide (n % 2 = 0))
    = [true, false, true, false, true, false, true, false, true, false, true, false,
       true, false, true, false, true, false, true, false, true, false, true, false,
       true, false, true, false, true, false, true, false, true, false, true, false,
       true, false, true, false, true, false] := by decide

theorem send_polarities (data data2 : Nat) (hd : data < 2 ^ 32) (hd2 : data2 < 2 ^ 8) :
    (send data data2).map Pulse.isMark
      = (List.range 42).map (fun n => decide (n % 2 = 0)) := by
  rw [send_eq data data2 hd hd2, polarities_42]
  simp [sentSlots, range_8, range_32, slotPulse]

theorem send_polarity_at (data data2 n : Nat) (p : Pulse) (hd : data < 2 ^ 32)
    (hd2 : data2 < 2 ^ 8) (h : (send data data2)[n]? = some p) :
    p.isMark = decide (n % 2 = 0) := by
  have hm : ((send data data2).map Pulse.isMark)[n]? = some p.isMark := by
    rw [List.getElem?_map, h]; rfl
  rw [send_polarities data data2 hd hd2, List.getElem?_map] at hm
  by_cases hn : n < 42
  · rw [List.getElem?_range hn] at hm
    exact (Option.some.inj hm).symm
  · rw [List.getElem?_eq_none (by simpa using hn)] at hm
    exact absurd hm (by simp)

/-- C16: for 32-bit `data` and 8-bit `data2`, the 42 pulses of `send` strictly
alternate: pulse `n` is a mark exactly when `n` is even, so the first is a mark,
the last is a space, and two consecutive pulses never have the same polarity. -/
theorem send_alternates (data data2 : Nat) (hd : data < 2 ^ 32) (hd2 : data2 < 2 ^ 8) :
    (send data data2).map Pulse.isMark = (List.range 42).map (fun n => decide (n % 2 = 0))
      ∧ (send data data2).head?.map Pulse.isMark = some true
      ∧ (send data data2).getLast?.map Pulse.isMark = some false
      ∧ ∀ n p q, (send data data2)[n]? = some p → (send data data2)[n + 1]? = some q →
          p.isMark ≠ q.isMark := by
  refine ⟨send_polarities data data2 hd hd2, ?_, ?_, ?_⟩
  · rw [send_eq data data2 hd hd2]; simp
  · rw [send_eq data data2 hd hd2, List.getLast?_concat]; simp
  · intro n p q hp hq
    rw [send_polarity_at data data2 n p hd hd2 hp,
      send_polarity_at data data2 (n + 1) q hd hd2 hq]
    by_cases h : n % 2 = 0
    · have h1 : ¬ (n + 1) % 2 = 0 := by omega
      simp [h, h1]
    · have h1 : (n + 1) % 2 = 0 := by omega
      simp [h, h1]

theorem send_alternates_witness :
    (send 0xAA123403 0xAE).head?.map Pulse.isMark = some true
      ∧ (send 0xAA123403 0xAE).getLast?.map Pulse.isMark = some false
      ∧ ((send 0xAA123403 0xAE)[8]? = some ⟨true, 400⟩ →
          (send 0xAA123403 0xAE)[8 + 1]? = some ⟨false, 800⟩ →
          (⟨true, 400⟩ : Pulse).isMark ≠ (⟨false, 800⟩ : Pulse).isMark)
      ∧ (send 0xAA123403 0xAE)[8]? = some ⟨true, 400⟩
      ∧ (send 0xAA123403 0xAE)[8 + 1]? = some ⟨false, 800⟩ :=
  ⟨(send_alternates 0xAA123403 0xAE (by norm_num) (by norm_num)).2.1,
    (send_alternates 0xAA123403 0xAE (by norm_num) (by norm_num)).2.2.1,
    (send_alternates 0xAA123403 0xAE (by norm_num) (by norm_num)).2.2.2 8 _ _,
    by decide, by decide⟩

theorem sum_bitDuration (l : List Bool) :
    (l.map bitDuration).sum = 400 * l.length + 400 * l.count true := by
  induction l with
  | nil => simp
  | cons b t ih =>
    cases b <;> simp [bitDuration, ih] <;> omega

theorem sentSlots_durations (data data2 : Nat) :
    (sentSlots data data2).map Pulse.dur
      = (bitsMSB 8 data2 ++ bitsMSB 32 data).map bitDuration := by
  simp [sentSlots, bitsMSB, slotPulse, Function.comp_def]

theorem bitsMSB_length (w x : Nat) : (bitsMSB w x).length = w := by
  simp [bitsMSB]

/-- C18: for 32-bit `data` and 8-bit `data2`, the durations of the pulses of
`send` add up to `18600 + 400 * (popcount data2 + popcount data)` microseconds,
which lies between 18600 and 34600, and every duration is at most 1600, so it
fits 16 bits. -/
theorem send_total_duration (data data2 : Nat) (hd : data < 2 ^ 32) (hd2 : data2 < 2 ^ 8) :
    ((send data data2).map Pulse.dur).sum
        = 18600 + 400 * (popcount 8 data2 + popcount 32 data)
      ∧ 18600 ≤ ((send data data2).map Pulse.dur).sum
      ∧ ((send data data2).map Pulse.dur).sum ≤ 34600
      ∧ (∀ p ∈ send data data2, p.dur ≤ 1600 ∧ p.dur < 2 ^ 16)
      ∧ DYNASTY_T0 < 2 ^ 16 ∧ DYNASTY_T1 < 2 ^ 16 ∧ DYNASTY_TH < 2 ^ 16 := by
  have hsum : ((send data data2).map Pulse.dur).sum
      = 18600 + 400 * (popcount 8 data2 + popcount 32 data) := by
    rw [send_eq data data2 hd hd2]
    simp only [List.map_cons, List.map_append, List.map_nil, List.sum_cons, List.sum_append,
      List.sum_nil, sentSlots_durations, sum_bitDuration, bitsMSB_length, popcount]
    omega
  have c8 : popcount 8 data2 ≤ 8 := by
    have := List.count_le_length true (bitsMSB 8 data2)
    rw [bitsMSB_length] at this
    exact this
  have c32 : popcount 32 data ≤ 32 := by
    have := List.count_le_length true (bitsMSB 32 data)
    rw [bitsMSB_length] at this
    exact this
  refine ⟨hsum, by omega, by omega, ?_, by decide, by decide, by decide⟩
  intro p hp
  rw [send_eq data data2 hd hd2] at hp
  have hle : p.dur ≤ 1600 := by
    simp only [List.cons_append, List.mem_cons, List.mem_append, List.mem_singleton,
      sentSlots, List.mem_map, List.not_mem_nil, or_false] at hp
    rcases hp with rfl | ((⟨j, _, rfl⟩ | ⟨j, _, rfl⟩) | rfl)
    · simp
    · simp only [slotPulse, bitDuration]; split <;> omega
    · simp only [slotPulse, bitDuration]; split <;> omega
    · simp
  exact ⟨hle, by omega⟩

theorem send_total_duration_witness :
    ((send 0xAA123403 0xAE).map Pulse.dur).sum
        = 18600 + 400 * (popcount 8 0xAE + popcount 32 0xAA123403)
      ∧ 18600 ≤ ((send 0xAA123403 0xAE).map Pulse.dur).sum
      ∧ ((send 0xAA123403 0xAE).map Pulse.dur).sum ≤ 34600 :=
  ⟨(send_total_duration 0xAA123403 0xAE (by norm_num) (by norm_num)).1,
    (send_total_duration 0xAA123403 0xAE (by norm_num) (by norm_num)).2.1,
    (send_total_duration 0xAA123403 0xAE (by norm_num) (by norm_num)).2.2.1⟩

end IRLibP13
